import Mathlib

/-!
Verification of the move-arbitration core of vaiolis/cdms-plays-chess.

This file shallowly embeds the logic of src/index.js (intake `playMove`,
worker `processMove`, `getGameMetadata`, `getChessProfile`) and of
src/util.js / src/unnamed/part_000 (`getOtherPlayer`, `getRandomPlayer`,
`getChessEmoji`, ...).

Modelling conventions:
- the two teams (constants.PLAYER_1 / PLAYER_2; constants.js is not in the
  sources, the values "carrie" / "larry" are recovered from
  util.getLichessToken and createNewGame, and from the earlier revision in
  src/unnamed/part_001) are an inductive type `Team`;
- database rows are structures; the `boards` table is a list ordered
  newest-created-first (so `SELECT .. ORDER BY created_at DESC LIMIT 1`
  is `List.head?`, and the upsert keeps a row's position while an insert
  prepends); the `moves` table is a list in insertion order with
  `move_id` ascending, so `ORDER BY move_id DESC LIMIT 1` over a filter
  is `List.getLast?`;
- the chess.js rules engine and the randomness of util.getRandomMove are
  an oracle (`ChessOracle`) passed to the functions: the embedded code
  only inspects whether `chess.move` returned null and the metadata of
  the resulting position, exactly as src/index.js does;
- the lichess response (`playMoveResponse.ok`) is a boolean parameter;
- timestamps are integers (milliseconds), `new Date().getTime()` is a
  parameter `now`.
-/

/-- The two teams. constants.PLAYER_1 = "carrie", constants.PLAYER_2 = "larry". -/
inductive Team where
  | carrie : Team
  | larry : Team
deriving DecidableEq, Repr

/-- The lowercase database representation of a team, as stored in the
`team` column of `moves` (src/index.js line 222). -/
def teamString : Team → String
  | Team.carrie => "carrie"
  | Team.larry => "larry"

/-- util.getOtherPlayer (src/unnamed/part_000 lines 40-41). -/
def getOtherPlayer : Team → Team
  | Team.carrie => Team.larry
  | Team.larry => Team.carrie

/-- Modelled from the spec: util.getPlayerName is called by src/index.js but
its definition is not among the sources; it renders a human-readable team
name for messages. Its value decides no claim. -/
def getPlayerName : Team → String
  | Team.carrie => "Carrie"
  | Team.larry => "Larry"

/-- String.toUpperCase of JavaScript restricted to the ASCII strings this
program stores ("carrie", "larry"). -/
def toUpperStr (s : String) : String := s.map Char.toUpper

/-- `playingAs.toUpperCase().charAt(0)` (src/index.js line 229): the
uppercase initial letter of the team name, used as a decisive result code. -/
def resultCode (t : Team) : String := (toUpperStr (teamString t)).take 1

/-- The draw marker written on a non-checkmate game over (src/index.js line 231). -/
def drawCode : String := "D"

/-- Modelled from the spec: constants.RANDOM (constants.js is not in the
sources); the sentinel text of a "random legal move" submission, `/play
random` per getChessHelp (src/index.js line 465). -/
def RANDOM : String := "random"

/-- JavaScript truthiness of a nullable text column (null and the empty
string are falsy). -/
def truthyOpt : Option String → Bool
  | none => false
  | some s => decide (s ≠ "")

/-- A row of the `boards` table. `last_updated` is read by processMove
(line 257); the schema that maintains it is not in the sources, so the
upsert here stamps it with the processing time. -/
structure BoardRow where
  game_id : Nat
  fen : String
  current_team : Team
  move_count : Nat
  result : Option String
  last_updated : Int
deriving DecidableEq, Repr

/-- A row of the `moves` table. -/
structure MoveRow where
  move_id : Nat
  username : String
  move : String
  team : Team
  game_id : Nat
  created_at : Int
deriving DecidableEq, Repr

/-- The database state visible to playMove / processMove. -/
structure DB where
  boards : List BoardRow
  moves : List MoveRow
deriving DecidableEq, Repr

/-- `SELECT * FROM boards WHERE game_id = $1 LIMIT 1` (src/index.js 153-156). -/
def findBoard (boards : List BoardRow) (g : Nat) : Option BoardRow :=
  boards.find? fun r => decide (r.game_id = g)

/-- `SELECT * FROM moves WHERE username = $1 AND game_id = $2 ORDER BY
move_id DESC LIMIT 1` (src/index.js 83-86): the matching row with the
greatest move_id, i.e. the last matching element in insertion order. -/
def lastUserMove (moves : List MoveRow) (u : String) (g : Nat) : Option MoveRow :=
  (moves.filter fun m => decide (m.username = u) && decide (m.game_id = g)).getLast?

/-- The queued work item (jobData, src/index.js 125-131). -/
structure JobData where
  gameId : Nat
  ongoingGameExists : Bool
  playingAs : Team
  user_name : String
  suggestedMove : String
deriving DecidableEq, Repr

/-- The data src/index.js reads off a successful chess.js move: the next
FEN, the verbose last-move record (from/to/promotion/color/piece) and the
termination predicates. -/
structure MoveRes where
  nextFen : String
  uciFrom : String
  uciTo : String
  promotion : String
  gameOver : Bool
  checkmate : Bool
  color : String
  piece : String
deriving DecidableEq, Repr

/-- The rules-engine collaborator (chess.js) together with the random
choice made by util.getRandomMove. `applyMove fen? text` is
`new Chess(fen?).move(text)` (`none` seeds the initial position);
`randomMove fen?` is the move text util.getRandomMove picks on that board. -/
structure ChessOracle where
  applyMove : Option String → String → Option MoveRes
  randomMove : Option String → String

/-- Environment configuration: process.env.MOVE_TIMEOUT in milliseconds. -/
structure Env where
  MOVE_TIMEOUT : Int
deriving DecidableEq, Repr

/-- util.getChessEmoji (src/util.js). -/
def getChessEmoji (color piece : String) : String :=
  if color = "w" then
    if piece = "k" then "♔"
    else if piece = "q" then "♕"
    else if piece = "r" then "♖"
    else if piece = "n" then "♘"
    else if piece = "b" then "♗"
    else "♙"
  else
    if piece = "k" then "♚"
    else if piece = "q" then "♛"
    else if piece = "r" then "♜"
    else if piece = "n" then "♞"
    else if piece = "b" then "♝"
    else "♟️"

/-- The board fen the worker seeds chess.js with (src/index.js 175-179):
the stored fen when the work item says a game was ongoing and the row's
fen is truthy, otherwise the initial position (`none`). -/
def chessFenFor (db : DB) (j : JobData) : Option String :=
  let f : Option String := (findBoard db.boards j.gameId).map fun r => r.fen
  if j.ongoingGameExists && truthyOpt f then f else none

/-- The move text the worker commits (src/index.js 181-189): the oracle's
random pick when the submission was the RANDOM sentinel, else the
submitted text. -/
def committedFor (o : ChessOracle) (db : DB) (j : JobData) : String :=
  if j.suggestedMove = RANDOM then o.randomMove (chessFenFor db j) else j.suggestedMove

/-- The stale-turn guard (src/index.js 163): reject when the re-fetched
row exists and its current_team differs from the item's effective team. -/
def tooLateCheck (db : DB) (j : JobData) : Bool :=
  match (findBoard db.boards j.gameId).map fun r => r.current_team with
  | some c => decide (j.playingAs ≠ c)
  | none => false

/-- The boards upsert (src/index.js 234-254): `INSERT ... ON CONFLICT
(game_id) DO UPDATE`. When `res` is `some`, the statement carries the
result column (game-over variant); when `none` it does not, so an update
leaves the stored result untouched while an insert leaves it null. -/
def upsertBoard (now : Int) (boards : List BoardRow) (g : Nat) (fen : String)
    (team : Team) (mc : Nat) (res : Option String) : List BoardRow :=
  if boards.any fun r => decide (r.game_id = g) then
    boards.map fun r =>
      if r.game_id = g then
        { r with
          fen := fen, current_team := team, move_count := mc,
          result := (match res with | some x => some x | none => r.result),
          last_updated := now }
      else r
  else
    { game_id := g, fen := fen, current_team := team, move_count := mc,
      result := res, last_updated := now } :: boards

/-- The outcome of one processMove call: the database afterwards, the
returned {result, message}, whether the lichess move endpoint was called,
whether a chat message was posted and with which text, and the computed
gameUrlText fragment. -/
structure ProcOut where
  db : DB
  result : String
  message : String
  remoteCalled : Bool
  notified : Bool
  gameUrlText : String
  chatText : Option String
deriving Repr

/-- processMove (src/index.js 143-305), as a pure function of the job
data, the database, the rules oracle, the lichess answer and the clock. -/
def processMoveFun (o : ChessOracle) (remoteOk : Bool) (now : Int)
    (j : JobData) (db : DB) : ProcOut :=
  let boardRow? := findBoard db.boards j.gameId
  let currentMoveCount : Nat := ((boardRow?.map fun r => r.move_count).getD 0)
  if tooLateCheck db j then
    { db := db, result := "error",
      message := "❌ Too Late: it is now the other player's turn!",
      remoteCalled := false, notified := false, gameUrlText := "", chatText := none }
  else
    let committedMove := committedFor o db j
    match o.applyMove (chessFenFor db j) committedMove with
    | none =>
      { db := db, result := "error",
        message := "🚫 Invalid move: *" ++ committedMove ++ "* was not played",
        remoteCalled := false, notified := false, gameUrlText := "", chatText := none }
    | some res =>
      let gameUrlText :=
        if !res.gameOver && (!j.ongoingGameExists || decide (currentMoveCount % 10 = 0)) then
          "\n>View ongoing game at https://lichess.org/" ++ toString j.gameId
        else ""
      if remoteOk then
        let newMove : MoveRow :=
          { move_id := db.moves.length, username := j.user_name, move := committedMove,
            team := j.playingAs, game_id := j.gameId, created_at := now }
        let boards' :=
          if res.gameOver then
            upsertBoard now db.boards j.gameId res.nextFen (getOtherPlayer j.playingAs)
              (currentMoveCount + 1)
              (some (if res.checkmate then resultCode j.playingAs else drawCode))
          else
            upsertBoard now db.boards j.gameId res.nextFen (getOtherPlayer j.playingAs)
              (currentMoveCount + 1) none
        let timeSinceLastUpdate : Option Int :=
          if j.ongoingGameExists then boardRow?.map fun r => now - r.last_updated
          else some 1500
        let notified :=
          (match timeSinceLastUpdate with
           | some t => decide (t > 1499)
           | none => false) || res.gameOver
        let chatText :=
          if notified then
            some ((if !j.ongoingGameExists then "🆕 A new game has begun!\n" else "")
              ++ getChessEmoji res.color res.piece ++ " " ++ j.user_name
              ++ " played *" ++ committedMove ++ "*" ++ gameUrlText
              ++ (if res.gameOver then
                    "\n🏁 The current game is now over! Use /play to start a new one!"
                  else ""))
          else none
        { db := { boards := boards', moves := db.moves ++ [newMove] },
          result := "success",
          message := "*" ++ committedMove ++ "* was successfully played",
          remoteCalled := true, notified := notified,
          gameUrlText := gameUrlText, chatText := chatText }
      else
        { db := db, result := "error",
          message := "🚫 Invalid move: *" ++ committedMove ++ "* was not played",
          remoteCalled := true, notified := false,
          gameUrlText := gameUrlText, chatText := none }

/-- getGameMetadata (src/index.js 307-340). On success: (gameId,
ongoingGameExists, isPlayerTurn, suggestedMove); the thrown invalid-move
error is the `Except.error` case. `newId` is the id the lichess
challenge would return; the new-game branch is entered only after the
disposable pre-validation passed. -/
def getGameMetadataFun (o : ChessOracle) (db : DB) (playingAs : Team)
    (suggestedMove : String) (newId : Nat) :
    Except String (Nat × Bool × Bool × String) :=
  let newGamePath : Except String (Nat × Bool × Bool × String) :=
    let moveResult :=
      if suggestedMove = RANDOM then o.applyMove none (o.randomMove none)
      else o.applyMove none suggestedMove
    match moveResult with
    | none => Except.error ("🚫 Invalid move: *" ++ suggestedMove ++ "* was not played")
    | some _ => Except.ok (newId, false, true, suggestedMove)
  match db.boards.head? with
  | some row =>
    if truthyOpt row.result then newGamePath
    else Except.ok (row.game_id, true, decide (row.current_team = playingAs), suggestedMove)
  | none => newGamePath

/-- The outcome of one playMove call: the text sent back to the caller,
the enqueued work item if any, and whether a new remote-hosted game was
created during the call. -/
structure IntakeOut where
  response : String
  job : Option JobData
  createdRemoteGame : Bool
deriving Repr

/-- The cooldown rejection text (src/index.js 96-100): it interpolates
`process.env.MOVE_TIMEOUT / 1000`, a constant of the deployment. -/
def cooldownMessage (env : Env) : String :=
  "🕒 Please wait " ++ toString (env.MOVE_TIMEOUT / 1000) ++ " seconds between moves"

/-- The turn rejection text (src/index.js 109-113). -/
def turnRejectMessage (t : Team) : String :=
  "⛔ You are playing for " ++ getPlayerName t ++ ", please wait until it is your turn to move"

/-- The acknowledgement sent on enqueue (src/index.js 135). -/
def submittedMessage : String :=
  "🕒 Move submitted, if it doesn't show up on the board check your syntax and try again"

/-- playMove (src/index.js 55-141) as a pure function. `text` and
`user_name` come from the request body, `playingAsArg` is the optional
route-fixed team, `rp` is the team util.getRandomPlayer would pick, and
`newId` the id createNewGame would return. -/
def playMoveFun (o : ChessOracle) (env : Env) (now : Int) (db : DB)
    (text user_name : String) (playingAsArg : Option Team) (rp : Team)
    (newId : Nat) : IntakeOut :=
  let playingAs := playingAsArg.getD rp
  match getGameMetadataFun o db playingAs text newId with
  | Except.error e => { response := e, job := none, createdRemoteGame := false }
  | Except.ok (gameId, ongoingGameExists, isPlayerTurn, suggestedMove) =>
    let created := !ongoingGameExists
    match lastUserMove db.moves user_name gameId with
    | some currentMoveRow =>
      let timeSinceLastMove := now - currentMoveRow.created_at
      if timeSinceLastMove < env.MOVE_TIMEOUT then
        { response := cooldownMessage env, job := none, createdRemoteGame := created }
      else if (playingAs = currentMoveRow.team && !isPlayerTurn)
          || (decide (playingAs ≠ currentMoveRow.team) && isPlayerTurn) then
        { response := turnRejectMessage currentMoveRow.team, job := none,
          createdRemoteGame := created }
      else
        let jb : JobData :=
          { gameId := gameId, ongoingGameExists := ongoingGameExists,
            playingAs := currentMoveRow.team, user_name := user_name,
            suggestedMove := suggestedMove }
        { response := submittedMessage, job := some jb, createdRemoteGame := created }
    | none =>
      let playingAs₂ :=
        if ongoingGameExists && !isPlayerTurn then getOtherPlayer playingAs else playingAs
      let jb : JobData :=
        { gameId := gameId, ongoingGameExists := ongoingGameExists,
          playingAs := playingAs₂, user_name := user_name,
          suggestedMove := suggestedMove }
      { response := submittedMessage, job := some jb, createdRemoteGame := created }

/-- A row of the profile query of getChessProfile (src/index.js 404-407):
one joined game of the identity, with the team of one of their moves in
it and the game's nullable result. -/
structure ProfileGame where
  team : String
  result : Option String
deriving DecidableEq, Repr

/-- JavaScript truthiness of `game.result` combined with
`game.team.toUpperCase().startsWith(game.result)` (src/index.js 418-421). -/
def profileWinCond (g : ProfileGame) : Bool :=
  match g.result with
  | none => false
  | some r => decide (r ≠ "") && (toUpperStr g.team).startsWith r

/-- The win/loss/draw tally loop of getChessProfile (src/index.js
411-426), returning (wins, losses, draws). -/
def countProfile : List ProfileGame → Nat × Nat × Nat
  | [] => (0, 0, 0)
  | g :: gs =>
    let t := countProfile gs
    if g.result = some drawCode then (t.1, t.2.1, t.2.2 + 1)
    else if profileWinCond g then (t.1 + 1, t.2.1, t.2.2)
    else (t.1, t.2.1 + 1, t.2.2)

/-! Helper lemmas about the boards upsert. -/

/-- The row update applied by the ON CONFLICT branch of the upsert. -/
def updateRow (now : Int) (fen : String) (team : Team) (mc : Nat)
    (res : Option String) (r : BoardRow) : BoardRow :=
  { r with
    fen := fen, current_team := team, move_count := mc,
    result := (match res with | some x => some x | none => r.result),
    last_updated := now }

theorem upsertBoard_eq (now : Int) (boards : List BoardRow) (g : Nat) (fen : String)
    (team : Team) (mc : Nat) (res : Option String) :
    upsertBoard now boards g fen team mc res =
      if boards.any fun r => decide (r.game_id = g) then
        boards.map fun r => if r.game_id = g then updateRow now fen team mc res r else r
      else
        { game_id := g, fen := fen, current_team := team, move_count := mc,
          result := res, last_updated := now } :: boards := by
  unfold upsertBoard updateRow
  rfl

theorem find_map_update_aux (now : Int) (g : Nat) (fen : String) (team : Team)
    (mc : Nat) (res : Option String) :
    ∀ bs : List BoardRow, (bs.any fun r => decide (r.game_id = g)) = true →
      ∃ r, findBoard (bs.map fun b =>
          if b.game_id = g then updateRow now fen team mc res b else b) g = some r ∧
        r.game_id = g ∧ r.fen = fen ∧ r.current_team = team ∧ r.move_count = mc ∧
        (∀ x, res = some x → r.result = some x) := by
  intro bs
  induction bs with
  | nil => intro h; simp at h
  | cons b t ih =>
    intro h
    by_cases hb : b.game_id = g
    · refine ⟨updateRow now fen team mc res b, ?_, ?_, rfl, rfl, rfl, ?_⟩
      · simp [findBoard, List.find?, hb, updateRow]
      · simp [updateRow, hb]
      · intro x hx
        simp [updateRow, hx]
    · have ht : (t.any fun r => decide (r.game_id = g)) = true := by
        simpa [List.any_cons, hb] using h
      obtain ⟨r, hr, h1, h2, h3, h4, h5⟩ := ih ht
      refine ⟨r, ?_, h1, h2, h3, h4, h5⟩
      simpa [findBoard, List.find?, hb] using hr

theorem findBoard_upsert_self (now : Int) (bs : List BoardRow) (g : Nat) (fen : String)
    (team : Team) (mc : Nat) (res : Option String) :
    ∃ r, findBoard (upsertBoard now bs g fen team mc res) g = some r ∧
      r.game_id = g ∧ r.fen = fen ∧ r.current_team = team ∧ r.move_count = mc ∧
      (∀ x, res = some x → r.result = some x) := by
  rw [upsertBoard_eq]
  cases hany : (bs.any fun r => decide (r.game_id = g)) with
  | true =>
    simp only [hany, if_true]
    exact find_map_update_aux now g fen team mc res bs hany
  | false =>
    simp only [hany, Bool.false_eq_true, if_false]
    refine ⟨{ game_id := g, fen := fen, current_team := team, move_count := mc,
              result := res, last_updated := now },
      ?_, rfl, rfl, rfl, rfl, fun x hx => by rw [hx]⟩
    simp [findBoard, List.find?]

theorem find_map_update_other (now : Int) (g g' : Nat) (fen : String) (team : Team)
    (mc : Nat) (res : Option String) (hne : g' ≠ g) :
    ∀ bs : List BoardRow,
      findBoard (bs.map fun b =>
        if b.game_id = g then updateRow now fen team mc res b else b) g' = findBoard bs g' := by
  intro bs
  induction bs with
  | nil => rfl
  | cons b t ih =>
    show findBoard ((if b.game_id = g then updateRow now fen team mc res b else b) ::
      (t.map fun b => if b.game_id = g then updateRow now fen team mc res b else b)) g'
      = findBoard (b :: t) g'
    by_cases hb : b.game_id = g
    · rw [if_pos hb]
      unfold findBoard at ih ⊢
      rw [List.find?_cons_of_neg _ (by simp [updateRow, hb]; exact fun h => hne h.symm),
        List.find?_cons_of_neg _ (by simp [hb]; exact fun h => hne h.symm)]
      exact ih
    · rw [if_neg hb]
      by_cases hg : b.game_id = g'
      · unfold findBoard
        rw [List.find?_cons_of_pos _ (by simp [hg]), List.find?_cons_of_pos _ (by simp [hg])]
      · unfold findBoard at ih ⊢
        rw [List.find?_cons_of_neg _ (by simp [hg]), List.find?_cons_of_neg _ (by simp [hg])]
        exact ih

theorem findBoard_upsert_other (now : Int) (bs : List BoardRow) (g g' : Nat)
    (fen : String) (team : Team) (mc : Nat) (res : Option String) (hne : g' ≠ g) :
    findBoard (upsertBoard now bs g fen team mc res) g' = findBoard bs g' := by
  rw [upsertBoard_eq]
  cases hany : (bs.any fun r => decide (r.game_id = g)) with
  | true =>
    simp only [hany, if_true]
    exact find_map_update_other now g g' fen team mc res hne bs
  | false =>
    simp only [hany, Bool.false_eq_true, if_false]
    unfold findBoard
    rw [List.find?_cons_of_neg _ (by simp; exact fun h => hne h.symm)]

/-! Concrete fixtures used by witnesses and counterexamples. -/

/-- A concrete successful chess.js move result (no termination). -/
def res0 : MoveRes :=
  { nextFen := "fen-after", uciFrom := "e2", uciTo := "e4", promotion := "",
    gameOver := false, checkmate := false, color := "w", piece := "p" }

/-- A concrete rules oracle on which every move is legal and the random
pick is e4. -/
def oracle0 : ChessOracle :=
  { applyMove := fun _ _ => some res0, randomMove := fun _ => "e4" }

/-- A concrete rules oracle on which every move is illegal. -/
def oracleNone : ChessOracle :=
  { applyMove := fun _ _ => none, randomMove := fun _ => "e4" }

/-- A concrete open board row: game 1, carrie to move. -/
def row1 : BoardRow :=
  { game_id := 1, fen := "fenA", current_team := Team.carrie, move_count := 4,
    result := none, last_updated := 0 }

/-- A concrete database: game 1 open with row1, one prior move by alice
for carrie at time 0. -/
def db1 : DB :=
  { boards := [row1],
    moves := [{ move_id := 0, username := "alice", move := "e4", team := Team.carrie,
                game_id := 1, created_at := 0 }] }

/-- A concrete work item for game 1 carrying team larry. -/
def jobLarry : JobData :=
  { gameId := 1, ongoingGameExists := true, playingAs := Team.larry,
    user_name := "bob", suggestedMove := "e5" }

/-- A concrete work item for game 1 carrying team carrie. -/
def jobCarrie : JobData :=
  { gameId := 1, ongoingGameExists := true, playingAs := Team.carrie,
    user_name := "bob", suggestedMove := "e5" }

/-- C6: for every dequeued work item, process first re-fetches the Game
row for the work item's game identifier, and if the row's recorded
team-to-move differs from the work item's effective team it returns a
"too late" rejection with no board mutation and no remote-host call. -/
theorem c6_stale_turn_rejected (o : ChessOracle) (remoteOk : Bool) (now : Int)
    (j : JobData) (db : DB) (row : BoardRow)
    (hrow : findBoard db.boards j.gameId = some row)
    (hne : row.current_team ≠ j.playingAs) :
    (processMoveFun o remoteOk now j db).result = "error" ∧
    (processMoveFun o remoteOk now j db).message
      = "❌ Too Late: it is now the other player's turn!" ∧
    (processMoveFun o remoteOk now j db).db = db ∧
    (processMoveFun o remoteOk now j db).remoteCalled = false := by
  have ht : tooLateCheck db j = true := by
    unfold tooLateCheck
    rw [hrow]
    simp only [Option.map_some']
    exact decide_eq_true fun h => hne h.symm
  unfold processMoveFun
  simp only [ht, if_true]
  refine ⟨?_, ?_, ?_, ?_⟩ <;> simp

/-- Witness for C6 at a concrete input: db1 has game 1 with carrie to
move, the item carries larry, so processing changes nothing. -/
theorem c6_witness :
    findBoard db1.boards jobLarry.gameId = some row1 ∧
    row1.current_team ≠ jobLarry.playingAs ∧
    (processMoveFun oracle0 true 100 jobLarry db1).db = db1 ∧
    (processMoveFun oracle0 true 100 jobLarry db1).remoteCalled = false := by
  have h := c6_stale_turn_rejected oracle0 true 100 jobLarry db1 row1 (by decide) (by decide)
  exact ⟨by decide, by decide, h.2.2.1, h.2.2.2⟩

/-- C3: for every work item whose move passes local legality, if the
remote host responds non-success then process returns a rejection outcome
and performs no Move insert and no Game upsert: the local state after the
call equals the state before it. -/
theorem c3_remote_rejection_no_mutation (o : ChessOracle) (now : Int)
    (j : JobData) (db : DB) (res : MoveRes)
    (hlate : tooLateCheck db j = false)
    (hlegal : o.applyMove (chessFenFor db j) (committedFor o db j) = some res) :
    (processMoveFun o false now j db).remoteCalled = true ∧
    (processMoveFun o false now j db).result = "error" ∧
    (processMoveFun o false now j db).message
      = "🚫 Invalid move: *" ++ committedFor o db j ++ "* was not played" ∧
    (processMoveFun o false now j db).db = db := by
  unfold processMoveFun
  simp only [hlate, Bool.false_eq_true, if_false, hlegal]
  refine ⟨?_, ?_, ?_, ?_⟩ <;> simp

/-- Witness for C3 at a concrete input: a legal move for the team to
move that lichess rejects leaves db1 untouched. -/
theorem c3_witness :
    tooLateCheck db1 jobCarrie = false ∧
    oracle0.applyMove (chessFenFor db1 jobCarrie) (committedFor oracle0 db1 jobCarrie)
      = some res0 ∧
    (processMoveFun oracle0 false 100 jobCarrie db1).db = db1 ∧
    (processMoveFun oracle0 false 100 jobCarrie db1).result = "error" := by
  have h := c3_remote_rejection_no_mutation oracle0 100 jobCarrie db1 res0 (by decide) rfl
  exact ⟨by decide, rfl, h.2.2.2, h.2.1⟩

/-- The Move row the accept path inserts (src/index.js 221-224). -/
def insertedMove (o : ChessOracle) (now : Int) (j : JobData) (db : DB) : MoveRow :=
  { move_id := db.moves.length, username := j.user_name, move := committedFor o db j,
    team := j.playingAs, game_id := j.gameId, created_at := now }

/-- The result column value the accept path writes (src/index.js 226-243):
carried only when the game terminated. -/
def resultOptFor (res : MoveRes) (j : JobData) : Option String :=
  if res.gameOver then some (if res.checkmate then resultCode j.playingAs else drawCode)
  else none

/-- The move count processMove reads from the fetched row (`|| 0`). -/
def moveCountFor (db : DB) (j : JobData) : Nat :=
  ((findBoard db.boards j.gameId).map fun r => r.move_count).getD 0

/-- What the accept path of processMove writes: one appended Move row and
the boards upsert. -/
theorem processMove_accept (o : ChessOracle) (now : Int) (j : JobData) (db : DB)
    (res : MoveRes)
    (hlate : tooLateCheck db j = false)
    (hlegal : o.applyMove (chessFenFor db j) (committedFor o db j) = some res) :
    (processMoveFun o true now j db).db.moves = db.moves ++ [insertedMove o now j db] ∧
    (processMoveFun o true now j db).db.boards
      = upsertBoard now db.boards j.gameId res.nextFen (getOtherPlayer j.playingAs)
          (moveCountFor db j + 1) (resultOptFor res j) := by
  unfold processMoveFun insertedMove resultOptFor moveCountFor
  simp only [hlate, Bool.false_eq_true, if_false, hlegal]
  cases hgo : res.gameOver <;> simp [hgo]

/-- C4: for every work item accepted by the remote host, process inserts
exactly one Move row recording the submitting identity, the committed move
text, the effective team and the game id, and upserts the Game row with
the new position, move count incremented by one, team-to-move set to the
opposing team, and, when terminal, a result code equal to the effective
team's uppercase initial letter on checkmate or the draw marker otherwise. -/
theorem c4_accept_persists (o : ChessOracle) (now : Int) (j : JobData) (db : DB)
    (res : MoveRes)
    (hlate : tooLateCheck db j = false)
    (hlegal : o.applyMove (chessFenFor db j) (committedFor o db j) = some res) :
    (processMoveFun o true now j db).result = "success" ∧
    (processMoveFun o true now j db).db.moves = db.moves ++ [insertedMove o now j db] ∧
    (insertedMove o now j db).username = j.user_name ∧
    (insertedMove o now j db).move = committedFor o db j ∧
    (insertedMove o now j db).team = j.playingAs ∧
    (insertedMove o now j db).game_id = j.gameId ∧
    ∃ r, findBoard (processMoveFun o true now j db).db.boards j.gameId = some r ∧
      r.fen = res.nextFen ∧
      r.current_team = getOtherPlayer j.playingAs ∧
      r.move_count = moveCountFor db j + 1 ∧
      (res.gameOver = true →
        r.result = some (if res.checkmate then resultCode j.playingAs else drawCode)) := by
  obtain ⟨hm, hb⟩ := processMove_accept o now j db res hlate hlegal
  refine ⟨?_, hm, rfl, rfl, rfl, rfl, ?_⟩
  · unfold processMoveFun
    simp only [hlate, Bool.false_eq_true, if_false, hlegal]
    simp
  · rw [hb]
    obtain ⟨r, hr, hg, hf, hc, hmc, hres⟩ := findBoard_upsert_self now db.boards j.gameId
      res.nextFen (getOtherPlayer j.playingAs) (moveCountFor db j + 1) (resultOptFor res j)
    refine ⟨r, hr, hf, hc, hmc, fun hgo => hres _ ?_⟩
    unfold resultOptFor
    simp [hgo]

/-- Witness for C4 at a concrete input: bob plays a legal move for carrie
in game 1 and lichess accepts; the Move row and the updated Game row are
as stated. -/
theorem c4_witness :
    tooLateCheck db1 jobCarrie = false ∧
    oracle0.applyMove (chessFenFor db1 jobCarrie) (committedFor oracle0 db1 jobCarrie)
      = some res0 ∧
    (processMoveFun oracle0 true 100 jobCarrie db1).result = "success" ∧
    (processMoveFun oracle0 true 100 jobCarrie db1).db.moves
      = db1.moves ++ [insertedMove oracle0 100 jobCarrie db1] := by
  have h := c4_accept_persists oracle0 100 jobCarrie db1 res0 (by decide) rfl
  exact ⟨by decide, rfl, h.1, h.2.1⟩

/-! Intake (playMove) claims. -/

/-- A concrete prior Move row of alice in game 1 for carrie. -/
def aliceMove : MoveRow :=
  { move_id := 0, username := "alice", move := "e4", team := Team.carrie,
    game_id := 1, created_at := 0 }

/-- A concrete environment with a 5000 ms cooldown. -/
def env5000 : Env := { MOVE_TIMEOUT := 5000 }

/-- C1: for every submission from a pinned identity (one with a recorded
Move in the currently open game), once the cooldown has passed, intake
proceeds iff the identity's recorded team equals the team currently
allowed to move; when it proceeds the effective team is the recorded team
regardless of the team the submission requested, and otherwise the
submission is rejected with the "not your turn" message and nothing is
enqueued. -/
theorem c1_pinned_turn_gate (o : ChessOracle) (env : Env) (now : Int) (db : DB)
    (text u : String) (pArg : Option Team) (rp : Team) (newId : Nat)
    (row : BoardRow) (cm : MoveRow)
    (hrow : db.boards.head? = some row)
    (hopen : truthyOpt row.result = false)
    (hcm : lastUserMove db.moves u row.game_id = some cm)
    (hcool : ¬ (now - cm.created_at < env.MOVE_TIMEOUT)) :
    ((playMoveFun o env now db text u pArg rp newId).job ≠ none
      ↔ cm.team = row.current_team) ∧
    (∀ jb, (playMoveFun o env now db text u pArg rp newId).job = some jb →
      jb.playingAs = cm.team ∧ jb.gameId = row.game_id) ∧
    ((playMoveFun o env now db text u pArg rp newId).job = none →
      (playMoveFun o env now db text u pArg rp newId).response
        = turnRejectMessage cm.team) := by
  unfold playMoveFun getGameMetadataFun
  rw [hrow]
  simp only [hopen, Bool.false_eq_true, if_false, hcm]
  simp only [hcool, if_false]
  cases hP : pArg.getD rp <;> cases hct : cm.team <;> cases hrt : row.current_team <;>
    simp_all [turnRejectMessage]

/-- Witness for C1 at a concrete input: alice is pinned to carrie, carrie
is to move, the cooldown has passed, so the submission is enqueued. -/
theorem c1_witness :
    lastUserMove db1.moves "alice" row1.game_id = some aliceMove ∧
    (playMoveFun oracle0 env5000 10000 db1 "Nf3" "alice" none Team.larry 9).job ≠ none := by
  have h := c1_pinned_turn_gate oracle0 env5000 10000 db1 "Nf3" "alice" none Team.larry 9
    row1 aliceMove (by decide) (by decide) (by decide) (by decide)
  exact ⟨by decide, h.1.mpr (by decide)⟩

/-- C2: for every submission from an unpinned identity while a game is
open, the submission is enqueued (never rejected at intake) and the work
item's effective team is the team the open game is waiting on, whatever
team was requested or randomly assigned. -/
theorem c2_unpinned_routed (o : ChessOracle) (env : Env) (now : Int) (db : DB)
    (text u : String) (pArg : Option Team) (rp : Team) (newId : Nat)
    (row : BoardRow)
    (hrow : db.boards.head? = some row)
    (hopen : truthyOpt row.result = false)
    (hcm : lastUserMove db.moves u row.game_id = none) :
    ∃ jb, (playMoveFun o env now db text u pArg rp newId).job = some jb ∧
      jb.playingAs = row.current_team ∧ jb.gameId = row.game_id ∧
      jb.ongoingGameExists = true ∧ jb.user_name = u := by
  unfold playMoveFun getGameMetadataFun
  rw [hrow]
  simp only [hopen, Bool.false_eq_true, if_false, hcm]
  cases hP : pArg.getD rp <;> cases hrt : row.current_team <;>
    simp_all [getOtherPlayer]

/-- Witness for C2 at a concrete input: bob has no move in game 1, carrie
is to move, bob's random assignment is larry, yet the work item carries
carrie. -/
theorem c2_witness :
    lastUserMove db1.moves "bob" row1.game_id = none ∧
    ∃ jb, (playMoveFun oracle0 env5000 0 db1 "e5" "bob" none Team.larry 9).job = some jb ∧
      jb.playingAs = Team.carrie := by
  have h := c2_unpinned_routed oracle0 env5000 0 db1 "e5" "bob" none Team.larry 9 row1
    (by decide) (by decide) (by decide)
  obtain ⟨jb, h1, h2, _⟩ := h
  exact ⟨by decide, jb, h1, h2⟩

/-- Modelled from the spec: the cooldown message the claim describes,
carrying the remaining wait time (in seconds) before the identity may
move again. Used only to compare against the message the code builds. -/
def remainingWaitMessage (env : Env) (elapsed : Int) : String :=
  "🕒 Please wait " ++ toString ((env.MOVE_TIMEOUT - elapsed) / 1000)
    ++ " seconds between moves"

/-- C5 counterexample: with MOVE_TIMEOUT 5000, alice moved at t=0 and
submits again at t=3000. The submission is rejected with no enqueue, but
the message says 5 seconds, the full configured interval, not the
remaining 2 seconds; indeed the rejection message at elapsed 1000 ms and
at elapsed 3000 ms are identical, so it cannot carry the remaining wait. -/
theorem c5_counterexample :
    (playMoveFun oracle0 env5000 3000 db1 "Nf3" "alice" none Team.carrie 9).job = none ∧
    (playMoveFun oracle0 env5000 3000 db1 "Nf3" "alice" none Team.carrie 9).response
      = "🕒 Please wait 5 seconds between moves" ∧
    remainingWaitMessage env5000 3000 = "🕒 Please wait 2 seconds between moves" ∧
    (playMoveFun oracle0 env5000 3000 db1 "Nf3" "alice" none Team.carrie 9).response
      ≠ remainingWaitMessage env5000 3000 ∧
    (playMoveFun oracle0 env5000 3000 db1 "Nf3" "alice" none Team.carrie 9).response
      = (playMoveFun oracle0 env5000 1000 db1 "Nf3" "alice" none Team.carrie 9).response := by
  refine ⟨?_, ?_, ?_, ?_, ?_⟩ <;> decide

/-- C5 amended: for every submission by an identity whose most recent
Move in the currently open game has timestamp t, if now - t is below
MOVE_TIMEOUT then intake rejects with the cooldown message carrying the
configured interval MOVE_TIMEOUT/1000 seconds (not the remaining wait),
and no work item is enqueued; intake never writes a Move row. -/
theorem c5_cooldown_rejects (o : ChessOracle) (env : Env) (now : Int) (db : DB)
    (text u : String) (pArg : Option Team) (rp : Team) (newId : Nat)
    (row : BoardRow) (cm : MoveRow)
    (hrow : db.boards.head? = some row)
    (hopen : truthyOpt row.result = false)
    (hcm : lastUserMove db.moves u row.game_id = some cm)
    (hcool : now - cm.created_at < env.MOVE_TIMEOUT) :
    (playMoveFun o env now db text u pArg rp newId).job = none ∧
    (playMoveFun o env now db text u pArg rp newId).response = cooldownMessage env := by
  unfold playMoveFun getGameMetadataFun
  rw [hrow]
  simp only [hopen, Bool.false_eq_true, if_false, hcm]
  simp only [hcool, if_true]
  refine ⟨?_, ?_⟩ <;> simp

/-- Witness for C5 (amended) at the concrete input of the counterexample. -/
theorem c5_witness :
    lastUserMove db1.moves "alice" row1.game_id = some aliceMove ∧
    ((3000 : Int) - aliceMove.created_at < env5000.MOVE_TIMEOUT) ∧
    (playMoveFun oracle0 env5000 3000 db1 "Nf3" "alice" none Team.carrie 9).job = none := by
  have h := c5_cooldown_rejects oracle0 env5000 3000 db1 "Nf3" "alice" none Team.carrie 9
    row1 aliceMove (by decide) (by decide) (by decide) (by decide)
  exact ⟨by decide, by decide, h.1⟩

/-- C9: for every submission arriving when no game is open, intake
validates the submitted expression on a disposable rules engine seeded
with the initial position before any remote game is created: on failure
it returns the invalid-move error, creates no remote game and enqueues
nothing. -/
theorem c9_prevalidation (o : ChessOracle) (env : Env) (now : Int) (db : DB)
    (text u : String) (pArg : Option Team) (rp : Team) (newId : Nat)
    (hnogame : ∀ row, db.boards.head? = some row → truthyOpt row.result = true)
    (hnr : text ≠ RANDOM)
    (hbad : o.applyMove none text = none) :
    (playMoveFun o env now db text u pArg rp newId).response
      = "🚫 Invalid move: *" ++ text ++ "* was not played" ∧
    (playMoveFun o env now db text u pArg rp newId).job = none ∧
    (playMoveFun o env now db text u pArg rp newId).createdRemoteGame = false := by
  unfold playMoveFun getGameMetadataFun
  cases hh : db.boards.head? with
  | none => simp [hnr, hbad]
  | some row =>
    have hres := hnogame row hh
    simp [hres, hnr, hbad]

/-- Witness for C9 at a concrete input: empty database, submission Zz9 is
rejected by the disposable engine, nothing is enqueued or created. -/
theorem c9_witness :
    ("Zz9" : String) ≠ RANDOM ∧
    oracleNone.applyMove none "Zz9" = none ∧
    (playMoveFun oracleNone env5000 0 { boards := [], moves := [] } "Zz9" "carol"
      none Team.carrie 7).createdRemoteGame = false := by
  have h := c9_prevalidation oracleNone env5000 0 { boards := [], moves := [] } "Zz9" "carol"
    none Team.carrie 7 (by intro row hr; cases hr) (by decide) rfl
  exact ⟨by decide, rfl, h.2.2⟩

/-! Notification gate (C8) and profile record (C10). -/

/-- A concrete open board row on the every-10th-move cadence, freshly
updated at t=1000. -/
def row10 : BoardRow :=
  { game_id := 1, fen := "fenA", current_team := Team.carrie, move_count := 10,
    result := none, last_updated := 1000 }

/-- A concrete database holding only row10. -/
def db10 : DB := { boards := [row10], moves := [] }

/-- C8 counterexample: an accepted non-terminal move in an ongoing game
at move count 10 (on the every-10th cadence) processed with zero elapsed
time since the row's last update posts NO chat message, although the
claim says the cadence triggers one; the cadence only causes the board
link to be included in the (unsent) message text. -/
theorem c8_counterexample :
    (processMoveFun oracle0 true 1000 jobCarrie db10).result = "success" ∧
    moveCountFor db10 jobCarrie % 10 = 0 ∧
    res0.gameOver = false ∧
    jobCarrie.ongoingGameExists = true ∧
    (processMoveFun oracle0 true 1000 jobCarrie db10).notified = false ∧
    (processMoveFun oracle0 true 1000 jobCarrie db10).gameUrlText ≠ "" := by
  refine ⟨?_, ?_, ?_, ?_, ?_, ?_⟩ <;> decide

/-- C8 amended: for every processed accepted move, a chat notification is
emitted iff the game just ended, or the work item began a fresh game, or
a board row exists for the game and the elapsed time since its last
update exceeds the fixed 1499 ms threshold. The every-10th-move cadence
does not influence this decision; together with game-freshness and
non-terminality it decides only whether the board link is included in
the message text. -/
theorem c8_notification_gate (o : ChessOracle) (now : Int) (j : JobData) (db : DB)
    (res : MoveRes)
    (hlate : tooLateCheck db j = false)
    (hlegal : o.applyMove (chessFenFor db j) (committedFor o db j) = some res) :
    ((processMoveFun o true now j db).notified = true ↔
      (res.gameOver = true ∨ j.ongoingGameExists = false ∨
        ∃ row, findBoard db.boards j.gameId = some row ∧ now - row.last_updated > 1499)) ∧
    (processMoveFun o true now j db).gameUrlText
      = (if res.gameOver = false ∧ (j.ongoingGameExists = false ∨ moveCountFor db j % 10 = 0)
         then "\n>View ongoing game at https://lichess.org/" ++ toString j.gameId
         else "") := by
  unfold processMoveFun moveCountFor
  simp only [hlate, Bool.false_eq_true, if_false, hlegal]
  cases hfb : findBoard db.boards j.gameId with
  | none =>
    cases hgo : res.gameOver <;> cases hon : j.ongoingGameExists <;>
      simp_all [hfb]
  | some row =>
    cases hgo : res.gameOver <;> cases hon : j.ongoingGameExists <;>
      by_cases hmc : ((findBoard db.boards j.gameId).map fun r => r.move_count).getD 0 % 10 = 0 <;>
        by_cases ht : now - row.last_updated > 1499 <;>
          simp_all [hfb]

/-- A fresh-game work item used by the C8 witness: game 2 has no board
row yet and the item was enqueued through the new-game path. -/
def jobNew : JobData :=
  { gameId := 2, ongoingGameExists := false, playingAs := Team.carrie,
    user_name := "dana", suggestedMove := "d4" }

/-- Witness for C8 (amended) exercising both notification causes: the
first move of a freshly created game (no board row) is notified, and an
ongoing-game move processed 2000 ms after the row's last update (past
the 1499 ms window) is notified. -/
theorem c8_witness :
    jobNew.ongoingGameExists = false ∧
    findBoard ({ boards := [], moves := [] } : DB).boards jobNew.gameId = none ∧
    (processMoveFun oracle0 true 10 jobNew { boards := [], moves := [] }).notified = true ∧
    (processMoveFun oracle0 true 2000 jobCarrie db1).notified = true := by
  have hnew := c8_notification_gate oracle0 10 jobNew { boards := [], moves := [] } res0
    (by decide) rfl
  have hold := c8_notification_gate oracle0 2000 jobCarrie db1 res0 (by decide) rfl
  exact ⟨rfl, by decide, hnew.1.mpr (Or.inr (Or.inl rfl)),
    hold.1.mpr (Or.inr (Or.inr ⟨row1, by decide, by decide⟩))⟩

/-- The draw predicate of the profile tally: result column equal to the
draw marker. -/
def profileDraw (g : ProfileGame) : Bool := decide (g.result = some drawCode)

/-- The loss predicate of the profile tally: neither a draw nor a win,
including every game whose result is unset. -/
def profileLoss (g : ProfileGame) : Bool := !profileDraw g && !profileWinCond g

/-- C10: the profile record counts, among the identity's joined games, a
draw when the result is the draw marker, a win when the result is truthy
and the team's uppercase name starts with it, and a loss in every other
case; in particular every game with an unset result (such as the still
open game) counts as a loss. -/
theorem c10_profile_record (gs : List ProfileGame) :
    countProfile gs =
      ((gs.filter fun g => !profileDraw g && profileWinCond g).length,
       (gs.filter profileLoss).length,
       (gs.filter profileDraw).length) ∧
    (∀ g : ProfileGame, g.result = none → profileLoss g = true) := by
  constructor
  · induction gs with
    | nil => rfl
    | cons g t ih =>
      unfold countProfile
      rw [ih]
      by_cases hd : g.result = some drawCode
      · have hD : profileDraw g = true := by simp [profileDraw, hd]
        have hw : profileWinCond g = true ∨ profileWinCond g = false := by
          cases profileWinCond g <;> simp
        simp [hd, List.filter_cons, hD, profileLoss]
      · have hD : profileDraw g = false := by simp [profileDraw, hd]
        cases hw : profileWinCond g with
        | true => simp [hd, List.filter_cons, hD, hw, profileLoss]
        | false => simp [hd, List.filter_cons, hD, hw, profileLoss]
  · intro g hg
    simp [profileLoss, profileDraw, profileWinCond, hg]

/-- Witness for C10: the tally of a concrete game list, and an open game
(unset result) counting as a loss. -/
theorem c10_witness :
    countProfile [{ team := "carrie", result := none }]
      = (([{ team := "carrie", result := none }].filter fun g =>
            !profileDraw g && profileWinCond g).length,
         ([{ team := "carrie", result := none }].filter profileLoss).length,
         ([{ team := "carrie", result := none }].filter profileDraw).length) ∧
    profileLoss { team := "carrie", result := none } = true := by
  have h := c10_profile_record [{ team := "carrie", result := none }]
  exact ⟨h.1, h.2 { team := "carrie", result := none } rfl⟩

/-! System model for the pinning invariant (C7): the durable queue is a
FIFO list of work items, intake appends (at most) one item, the worker
pops the head and runs processMove atomically. The lichess game ids
returned by createNewGame are assumed fresh (hypotheses of the intake
step), and the fire-and-forget inserts of processMove are modelled as
taking effect with the call. -/


/-- getGameMetadata on an open game: the head row without a truthy
result. -/
theorem getGameMetadata_open (o : ChessOracle) (db : DB) (playingAs : Team)
    (sugg : String) (newId : Nat) (row : BoardRow)
    (hrow : db.boards.head? = some row) (hopen : truthyOpt row.result = false) :
    getGameMetadataFun o db playingAs sugg newId
      = Except.ok (row.game_id, true, decide (row.current_team = playingAs), sugg) := by
  unfold getGameMetadataFun
  rw [hrow]
  simp [hopen]

/-- getGameMetadata when no game is open: pre-validation then a fresh
game id. -/
theorem getGameMetadata_new (o : ChessOracle) (db : DB) (playingAs : Team)
    (sugg : String) (newId : Nat)
    (h : ∀ row, db.boards.head? = some row → truthyOpt row.result = true) :
    getGameMetadataFun o db playingAs sugg newId
      = (match (if sugg = RANDOM then o.applyMove none (o.randomMove none)
                else o.applyMove none sugg) with
         | none => Except.error ("🚫 Invalid move: *" ++ sugg ++ "* was not played")
         | some _ => Except.ok (newId, false, true, sugg)) := by
  unfold getGameMetadataFun
  cases hh : db.boards.head? with
  | none => rfl
  | some row => simp [h row hh]

/-- Where intake work items can come from: either the open game at the
head of boards, with effective team equal to that row's current team and
equal to the recorded team of the identity's last move when pinned, or a
freshly created game with identifier newId. -/
theorem playMove_job_spec (o : ChessOracle) (env : Env) (now : Int) (db : DB)
    (text u : String) (pArg : Option Team) (rp : Team) (newId : Nat) (jb : JobData)
    (hj : (playMoveFun o env now db text u pArg rp newId).job = some jb) :
    jb.user_name = u ∧
    ((∃ row, db.boards.head? = some row ∧ truthyOpt row.result = false ∧
        jb.gameId = row.game_id ∧ jb.playingAs = row.current_team ∧
        jb.ongoingGameExists = true ∧
        (∀ cm, lastUserMove db.moves u row.game_id = some cm → jb.playingAs = cm.team))
      ∨ (jb.gameId = newId ∧ jb.ongoingGameExists = false)) := by
  by_cases hopen : ∃ row, db.boards.head? = some row ∧ truthyOpt row.result = false
  · obtain ⟨row, hrow, hres⟩ := hopen
    unfold playMoveFun at hj
    simp only [getGameMetadata_open o db (pArg.getD rp) text newId row hrow hres] at hj
    rcases hl : lastUserMove db.moves u row.game_id with _ | cm
    · simp only [hl] at hj
      simp only [Option.some.injEq] at hj
      subst hj
      refine ⟨rfl, Or.inl ⟨row, hrow, hres, rfl, ?_, rfl, ?_⟩⟩
      · show (if (true && !decide (row.current_team = pArg.getD rp)) = true
            then getOtherPlayer (pArg.getD rp) else pArg.getD rp) = row.current_team
        cases hP : pArg.getD rp <;> cases hrt : row.current_team <;>
          simp [getOtherPlayer]
      · intro cm hcm
        rw [hl] at hcm
        cases hcm
    · simp only [hl] at hj
      by_cases hc : now - cm.created_at < env.MOVE_TIMEOUT
      · simp [hc] at hj
      · simp only [hc, if_false] at hj
        cases ht : (decide (pArg.getD rp = cm.team)
              && !decide (row.current_team = pArg.getD rp)
            || decide (pArg.getD rp ≠ cm.team)
              && decide (row.current_team = pArg.getD rp)) with
        | true =>
          simp only [ht, if_true] at hj
          simp at hj
        | false =>
          simp only [ht, Bool.false_eq_true, if_false, Option.some.injEq] at hj
          subst hj
          refine ⟨rfl, Or.inl ⟨row, hrow, hres, rfl, ?_, rfl, ?_⟩⟩
          · show cm.team = row.current_team
            revert ht
            cases hP : pArg.getD rp <;> cases hct : cm.team <;>
              cases hrt : row.current_team <;> simp
          · intro cm' hcm'
            rw [hl] at hcm'
            cases hcm'
            rfl
  · have hno : ∀ row, db.boards.head? = some row → truthyOpt row.result = true := by
      intro row hrow
      cases hx : truthyOpt row.result
      · exact absurd ⟨row, hrow, hx⟩ hopen
      · rfl
    unfold playMoveFun at hj
    simp only [getGameMetadata_new o db (pArg.getD rp) text newId hno] at hj
    rcases hv : (if text = RANDOM then o.applyMove none (o.randomMove none)
        else o.applyMove none text) with _ | res
    · simp only [hv] at hj
      cases hj
    · simp only [hv] at hj
      rcases hl : lastUserMove db.moves u newId with _ | cm
      · simp only [hl] at hj
        simp only [Option.some.injEq] at hj
        subst hj
        exact ⟨rfl, Or.inr ⟨rfl, rfl⟩⟩
      · simp only [hl] at hj
        by_cases hc : now - cm.created_at < env.MOVE_TIMEOUT
        · simp [hc] at hj
        · simp only [hc, if_false] at hj
          cases ht : (decide (pArg.getD rp = cm.team) && !true
              || decide (pArg.getD rp ≠ cm.team) && true) with
          | true =>
            simp only [ht, if_true] at hj
            simp at hj
          | false =>
            simp only [ht, Bool.false_eq_true, if_false, Option.some.injEq] at hj
            subst hj
            exact ⟨rfl, Or.inr ⟨rfl, rfl⟩⟩

/-- Consequence of passing the stale-turn guard: either the game has no
row yet, or its row's current team equals the item's effective team. -/
theorem tooLateCheck_false_elim (db : DB) (j : JobData) (h : tooLateCheck db j = false) :
    findBoard db.boards j.gameId = none ∨
    ∃ r, findBoard db.boards j.gameId = some r ∧ r.current_team = j.playingAs := by
  unfold tooLateCheck at h
  cases hr : findBoard db.boards j.gameId with
  | none => exact Or.inl rfl
  | some r =>
    rw [hr] at h
    simp only [Option.map_some'] at h
    simp at h
    exact Or.inr ⟨r, rfl, h.symm⟩

/-- processMove either leaves the database untouched (any rejection) or,
with the stale-turn guard passed, a legal move and remote acceptance,
appends exactly the one Move row and performs the boards upsert. -/
theorem processMove_db_cases (o : ChessOracle) (remoteOk : Bool) (now : Int)
    (j : JobData) (db : DB) :
    (processMoveFun o remoteOk now j db).db = db ∨
    (tooLateCheck db j = false ∧ remoteOk = true ∧
      ∃ res, o.applyMove (chessFenFor db j) (committedFor o db j) = some res ∧
        (processMoveFun o remoteOk now j db).db.moves
          = db.moves ++ [insertedMove o now j db] ∧
        (processMoveFun o remoteOk now j db).db.boards
          = upsertBoard now db.boards j.gameId res.nextFen (getOtherPlayer j.playingAs)
              (moveCountFor db j + 1) (resultOptFor res j)) := by
  cases hlate : tooLateCheck db j with
  | true =>
    left
    unfold processMoveFun
    simp [hlate]
  | false =>
    rcases hv : o.applyMove (chessFenFor db j) (committedFor o db j) with _ | res
    · left
      unfold processMoveFun
      simp [hlate, hv]
    · cases remoteOk with
      | false =>
        left
        unfold processMoveFun
        simp [hlate, hv]
      | true =>
        have h := processMove_accept o now j db res hlate hv
        exact Or.inr ⟨rfl, rfl, res, rfl, h.1, h.2⟩

/-- If an identity has any move in a game, the last-move query answers
with a move of that identity in that game. -/
theorem lastUserMove_of_mem (moves : List MoveRow) (u : String) (g : Nat) (m : MoveRow)
    (hm : m ∈ moves) (hu : m.username = u) (hg : m.game_id = g) :
    ∃ cm, lastUserMove moves u g = some cm ∧ cm ∈ moves ∧
      cm.username = u ∧ cm.game_id = g := by
  have hmem : m ∈ moves.filter fun x => decide (x.username = u) && decide (x.game_id = g) :=
    List.mem_filter.mpr ⟨hm, by simp [hu, hg]⟩
  have hne : (moves.filter fun x => decide (x.username = u) && decide (x.game_id = g)) ≠ [] :=
    List.ne_nil_of_mem hmem
  have hlast := List.getLast?_eq_getLast_of_ne_nil hne
  have hcmem := List.getLast_mem hne
  have hp := List.mem_filter.mp hcmem
  have hp2 := hp.2
  simp only [Bool.and_eq_true, decide_eq_true_eq] at hp2
  exact ⟨_, hlast, hp.1, hp2.1, hp2.2⟩

/-- The head of boards is found by its own game id. -/
theorem findBoard_head (boards : List BoardRow) (row : BoardRow)
    (h : boards.head? = some row) : findBoard boards row.game_id = some row := by
  cases boards with
  | nil => cases h
  | cons b t =>
    simp only [List.head?_cons, Option.some.injEq] at h
    subst h
    simp [findBoard, List.find?]

/-- The other player is never the same player. -/
theorem getOtherPlayer_ne (t : Team) : getOtherPlayer t ≠ t := by
  cases t <;> decide

/-- The full system state: the database plus the durable FIFO queue. -/
structure SysState where
  db : DB
  queue : List JobData

/-- A queued item is aligned when its effective team equals the current
team recorded on its game's row. -/
def alignedItem (boards : List BoardRow) (j : JobData) : Prop :=
  ∃ r, findBoard boards j.gameId = some r ∧ r.current_team = j.playingAs

/-- A game id unknown to the boards, the moves and the queue (remote ids
of freshly created games are assumed unique). -/
def freshId (s : SysState) (n : Nat) : Prop :=
  (∀ r, r ∈ s.db.boards → r.game_id ≠ n) ∧
  (∀ m, m ∈ s.db.moves → m.game_id ≠ n) ∧
  (∀ j, j ∈ s.queue → j.gameId ≠ n)

/-- One system transition: an intake call (appending the enqueued item,
if any) or the worker processing the queue head. -/
inductive Step : SysState → SysState → Prop where
  | intake (s : SysState) (o : ChessOracle) (env : Env) (now : Int)
      (text u : String) (pArg : Option Team) (rp : Team) (newId : Nat)
      (hfresh : freshId s newId) :
      Step s { db := s.db,
               queue := s.queue
                 ++ (playMoveFun o env now s.db text u pArg rp newId).job.toList }
  | process (s : SysState) (o : ChessOracle) (remoteOk : Bool) (now : Int)
      (j : JobData) (rest : List JobData) (hq : s.queue = j :: rest) :
      Step s { db := (processMoveFun o remoteOk now j s.db).db, queue := rest }

/-- The empty initial state. -/
def initState : SysState := { db := { boards := [], moves := [] }, queue := [] }

/-- States reachable from the empty initial state. -/
def Reachable (s : SysState) : Prop := Relation.ReflTransGen Step initState s

/-- All accepted moves of one identity in one game carry one team. -/
def InvMoves (db : DB) : Prop :=
  ∀ m1 m2, m1 ∈ db.moves → m2 ∈ db.moves →
    m1.username = m2.username → m1.game_id = m2.game_id → m1.team = m2.team

/-- Every queued item agrees with every accepted move of its identity in
its game. -/
def InvQueueMoves (s : SysState) : Prop :=
  ∀ jq m, jq ∈ s.queue → m ∈ s.db.moves →
    m.username = jq.user_name → m.game_id = jq.gameId → m.team = jq.playingAs

/-- Within one game, once a queued item is aligned every later queued
item of that game is aligned (the misaligned-then-aligned queue shape). -/
def InvPattern (s : SysState) : Prop :=
  ∀ j1 j2, List.Sublist [j1, j2] s.queue → j1.gameId = j2.gameId →
    alignedItem s.db.boards j1 → alignedItem s.db.boards j2

/-- No two queued items share a game id that has no board row yet. -/
def InvRowless (s : SysState) : Prop :=
  ∀ j1 j2, List.Sublist [j1, j2] s.queue → j1.gameId = j2.gameId →
    findBoard s.db.boards j1.gameId ≠ none

/-- The conjunction of the system invariants. -/
def SysInv (s : SysState) : Prop :=
  InvMoves s.db ∧ InvQueueMoves s ∧ InvPattern s ∧ InvRowless s

theorem sysInv_init : SysInv initState := by
  refine ⟨?_, ?_, ?_, ?_⟩
  · intro m1 m2 h1
    simp [initState] at h1
  · intro jq m h1
    simp [initState] at h1
  · intro j1 j2 hsub
    have := hsub.length_le
    simp [initState] at this
  · intro j1 j2 hsub
    have := hsub.length_le
    simp [initState] at this

/-- An ordered pair from the head and a tail member. -/
theorem pair_head (j j2 : JobData) (rest : List JobData) (h : j2 ∈ rest) :
    List.Sublist [j, j2] (j :: rest) :=
  List.Sublist.cons₂ j (List.singleton_sublist.mpr h)

/-- An ordered pair of a tail is an ordered pair of the list. -/
theorem pair_tail (j1 j2 j : JobData) (rest : List JobData)
    (h : List.Sublist [j1, j2] rest) : List.Sublist [j1, j2] (j :: rest) :=
  List.Sublist.cons j h

/-- An ordered pair of an appended singleton is an ordered pair of the
prefix, or a member of the prefix followed by the appended item. -/
theorem pair_append_singleton (j1 j2 x : JobData) (l : List JobData)
    (h : List.Sublist [j1, j2] (l ++ [x])) :
    List.Sublist [j1, j2] l ∨ (j1 ∈ l ∧ j2 = x) := by
  induction l with
  | nil =>
    have := h.length_le
    simp at this
  | cons a t ih =>
    cases h with
    | cons _ h' =>
      rcases ih h' with hl | ⟨hmem, hx⟩
      · exact Or.inl (List.Sublist.cons a hl)
      · exact Or.inr ⟨List.mem_cons_of_mem a hmem, hx⟩
    | cons₂ _ h' =>
      have hmem : j2 ∈ t ++ [x] := List.singleton_sublist.mp h'
      rcases List.mem_append.mp hmem with ht | hx
      · exact Or.inl (List.Sublist.cons₂ j1 (List.singleton_sublist.mpr ht))
      · exact Or.inr ⟨List.mem_cons_self j1 t, by simpa using hx⟩

theorem sysInv_intake (s : SysState) (o : ChessOracle) (env : Env) (now : Int)
    (text u : String) (pArg : Option Team) (rp : Team) (newId : Nat)
    (hfresh : freshId s newId) (hinv : SysInv s) :
    SysInv { db := s.db,
             queue := s.queue
               ++ (playMoveFun o env now s.db text u pArg rp newId).job.toList } := by
  obtain ⟨hA, hB, hC, hD⟩ := hinv
  rcases hj : (playMoveFun o env now s.db text u pArg rp newId).job with _ | jb
  · simp only [hj, Option.toList_none, List.append_nil]
    exact ⟨hA, hB, hC, hD⟩
  · simp only [hj, Option.toList_some]
    obtain ⟨huser, hspec⟩ := playMove_job_spec o env now s.db text u pArg rp newId jb hj
    refine ⟨hA, ?_, ?_, ?_⟩
    · -- InvQueueMoves
      intro jq m hjq hm hum hgm
      rcases List.mem_append.mp hjq with hold | hnew
      · exact hB jq m hold hm hum hgm
      · have hjq' : jq = jb := by simpa using hnew
        subst hjq'
        rcases hspec with ⟨row, hrow, hres, hg, hp, _, hpin⟩ | ⟨hgid, _⟩
        · obtain ⟨cm, hcm, hcmm, hcmu, hcmg⟩ :=
            lastUserMove_of_mem s.db.moves u row.game_id m hm
              (by rw [hum, huser]) (by rw [hgm, hg])
          have h1 := hA m cm hm hcmm (by rw [hcmu, hum, huser]) (by rw [hcmg, hgm, hg])
          rw [h1, ← hpin cm hcm]
        · exact absurd (hgm.trans hgid) (hfresh.2.1 m hm)
    · -- InvPattern
      intro j1 j2 hsub hgid ha1
      rcases pair_append_singleton j1 j2 jb s.queue hsub with hl | ⟨hmem, hx⟩
      · exact hC j1 j2 hl hgid ha1
      · subst hx
        rcases hspec with ⟨row, hrow, hres, hg, hp, _, _⟩ | ⟨hgid2, _⟩
        · exact ⟨row, by rw [hg]; exact findBoard_head s.db.boards row hrow, hp.symm⟩
        · exact absurd (hgid.trans hgid2) (hfresh.2.2 j1 hmem)
    · -- InvRowless
      intro j1 j2 hsub hgid
      rcases pair_append_singleton j1 j2 jb s.queue hsub with hl | ⟨hmem, hx⟩
      · exact hD j1 j2 hl hgid
      · subst hx
        rcases hspec with ⟨row, hrow, hres, hg, hp, _, _⟩ | ⟨hgid2, _⟩
        · rw [hgid, hg, findBoard_head s.db.boards row hrow]
          intro hcontra
          cases hcontra
        · exact absurd (hgid.trans hgid2) (hfresh.2.2 j1 hmem)

theorem sysInv_process (s : SysState) (o : ChessOracle) (remoteOk : Bool) (now : Int)
    (j : JobData) (rest : List JobData) (hq : s.queue = j :: rest) (hinv : SysInv s) :
    SysInv { db := (processMoveFun o remoteOk now j s.db).db, queue := rest } := by
  obtain ⟨hA, hB, hC, hD⟩ := hinv
  have hjmem : j ∈ s.queue := by rw [hq]; exact List.mem_cons_self j rest
  have hrest_mem : ∀ j', j' ∈ rest → j' ∈ s.queue := by
    intro j' h
    rw [hq]
    exact List.mem_cons_of_mem j h
  have hrest_pair : ∀ j1 j2, List.Sublist [j1, j2] rest → List.Sublist [j1, j2] s.queue := by
    intro j1 j2 h
    rw [hq]
    exact pair_tail j1 j2 j rest h
  rcases processMove_db_cases o remoteOk now j s.db with hsame | ⟨hlate, hok, res, hv, hm, hb⟩
  · rw [hsame]
    refine ⟨hA, ?_, ?_, ?_⟩
    · intro jq m hjq hmm hum hgm
      exact hB jq m (hrest_mem jq hjq) hmm hum hgm
    · intro j1 j2 hsub hgid ha1
      exact hC j1 j2 (hrest_pair j1 j2 hsub) hgid ha1
    · intro j1 j2 hsub hgid
      exact hD j1 j2 (hrest_pair j1 j2 hsub) hgid
  · -- accepted move: one Move row appended, boards upserted
    have hAnew : InvMoves (processMoveFun o remoteOk now j s.db).db := by
      intro m1 m2 h1 h2 hum hgm
      rw [hm] at h1 h2
      rcases List.mem_append.mp h1 with h1o | h1n
      · rcases List.mem_append.mp h2 with h2o | h2n
        · exact hA m1 m2 h1o h2o hum hgm
        · have h2n' : m2 = insertedMove o now j s.db := by simpa using h2n
          subst h2n'
          exact hB j m1 hjmem h1o (by simpa using hum) (by simpa using hgm)
      · have h1n' : m1 = insertedMove o now j s.db := by simpa using h1n
        subst h1n'
        rcases List.mem_append.mp h2 with h2o | h2n
        · exact (hB j m2 hjmem h2o (by simpa using hum.symm)
            (by simpa using hgm.symm)).symm
        · have h2n' : m2 = insertedMove o now j s.db := by simpa using h2n
          rw [h2n']
    obtain ⟨ru, hru, hrug, hruf, hruc, hrum, hrur⟩ :=
      findBoard_upsert_self now s.db.boards j.gameId res.nextFen
        (getOtherPlayer j.playingAs) (moveCountFor s.db j + 1) (resultOptFor res j)
    rcases tooLateCheck_false_elim s.db j hlate with hnone | ⟨r, hr, hcur⟩
    · -- the game had no row: j was the only queued item of its game
      have hnoshare : ∀ j', j' ∈ rest → j'.gameId ≠ j.gameId := by
        intro j' hj' heq
        exact hD j j' (by rw [hq]; exact pair_head j j' rest hj') heq.symm hnone
      refine ⟨hAnew, ?_, ?_, ?_⟩
      · intro jq m hjq hmm hum hgm
        rw [hm] at hmm
        rcases List.mem_append.mp hmm with ho | hn
        · exact hB jq m (hrest_mem jq hjq) ho hum hgm
        · have hn' : m = insertedMove o now j s.db := by simpa using hn
          subst hn'
          exact absurd (by simpa using hgm.symm) (hnoshare jq hjq)
      · intro j1 j2 hsub hgid ha1
        have hm1 : j1 ∈ rest := hsub.subset (List.mem_cons_self j1 [j2])
        have hne1 : j1.gameId ≠ j.gameId := hnoshare j1 hm1
        have hne2 : j2.gameId ≠ j.gameId := by rw [← hgid]; exact hne1
        obtain ⟨r1, hr1, hc1⟩ := ha1
        rw [hb, findBoard_upsert_other now s.db.boards j.gameId j1.gameId res.nextFen
          (getOtherPlayer j.playingAs) (moveCountFor s.db j + 1) (resultOptFor res j) hne1]
          at hr1
        obtain ⟨r2, hr2, hc2⟩ := hC j1 j2 (hrest_pair j1 j2 hsub) hgid ⟨r1, hr1, hc1⟩
        refine ⟨r2, ?_, hc2⟩
        rw [hb, findBoard_upsert_other now s.db.boards j.gameId j2.gameId res.nextFen
          (getOtherPlayer j.playingAs) (moveCountFor s.db j + 1) (resultOptFor res j) hne2]
        exact hr2
      · intro j1 j2 hsub hgid
        by_cases hg2 : j1.gameId = j.gameId
        · rw [hb, hg2, hru]
          intro hcontra
          cases hcontra
        · rw [hb, findBoard_upsert_other now s.db.boards j.gameId j1.gameId res.nextFen
            (getOtherPlayer j.playingAs) (moveCountFor s.db j + 1) (resultOptFor res j) hg2]
          exact hD j1 j2 (hrest_pair j1 j2 hsub) hgid
    · -- the game had a row: every queued item of this game carried j's team
      have hsame_team : ∀ j', j' ∈ rest → j'.gameId = j.gameId → j'.playingAs = j.playingAs := by
        intro j' hmem hgid
        obtain ⟨r', hr', hc'⟩ := hC j j' (by rw [hq]; exact pair_head j j' rest hmem)
          hgid.symm ⟨r, hr, hcur⟩
        rw [hgid, hr] at hr'
        cases hr'
        exact hc'.symm.trans hcur
      refine ⟨hAnew, ?_, ?_, ?_⟩
      · intro jq m hjq hmm hum hgm
        rw [hm] at hmm
        rcases List.mem_append.mp hmm with ho | hn
        · exact hB jq m (hrest_mem jq hjq) ho hum hgm
        · have hn' : m = insertedMove o now j s.db := by simpa using hn
          subst hn'
          exact (hsame_team jq hjq (by simpa using hgm.symm)).symm
      · intro j1 j2 hsub hgid ha1
        have hm1 : j1 ∈ rest := hsub.subset (List.mem_cons_self j1 [j2])
        by_cases hg2 : j1.gameId = j.gameId
        · obtain ⟨r1, hr1, hc1⟩ := ha1
          rw [hb, hg2, hru] at hr1
          cases hr1
          have h1 : j1.playingAs = j.playingAs := hsame_team j1 hm1 hg2
          rw [← hc1, hruc] at h1
          exact absurd h1 (getOtherPlayer_ne j.playingAs)
        · have hne2 : j2.gameId ≠ j.gameId := by rw [← hgid]; exact hg2
          obtain ⟨r1, hr1, hc1⟩ := ha1
          rw [hb, findBoard_upsert_other now s.db.boards j.gameId j1.gameId res.nextFen
            (getOtherPlayer j.playingAs) (moveCountFor s.db j + 1) (resultOptFor res j) hg2]
            at hr1
          obtain ⟨r2, hr2, hc2⟩ := hC j1 j2 (hrest_pair j1 j2 hsub) hgid ⟨r1, hr1, hc1⟩
          refine ⟨r2, ?_, hc2⟩
          rw [hb, findBoard_upsert_other now s.db.boards j.gameId j2.gameId res.nextFen
            (getOtherPlayer j.playingAs) (moveCountFor s.db j + 1) (resultOptFor res j) hne2]
          exact hr2
      · intro j1 j2 hsub hgid
        by_cases hg2 : j1.gameId = j.gameId
        · rw [hb, hg2, hru]
          intro hcontra
          cases hcontra
        · rw [hb, findBoard_upsert_other now s.db.boards j.gameId j1.gameId res.nextFen
            (getOtherPlayer j.playingAs) (moveCountFor s.db j + 1) (resultOptFor res j) hg2]
          exact hD j1 j2 (hrest_pair j1 j2 hsub) hgid

theorem sysInv_step (s s' : SysState) (hstep : Step s s') (hinv : SysInv s) : SysInv s' := by
  cases hstep with
  | intake o env now text u pArg rp newId hfresh =>
    exact sysInv_intake s o env now text u pArg rp newId hfresh hinv
  | process o remoteOk now j rest hq =>
    exact sysInv_process s o remoteOk now j rest hq hinv

theorem reachable_sysInv (s : SysState) (h : Reachable s) : SysInv s := by
  induction h with
  | refl => exact sysInv_init
  | tail hr hstep ih => exact sysInv_step _ _ hstep ih

/-- C7: in every reachable state, all accepted Move rows of one identity
within the open game record the same team: once an identity has a Move
row on team A there, no submission sequence can have produced a row for
that identity on team B in the same game. Modelling assumptions: the
worker processes the FIFO queue one item at a time to completion, the
fire-and-forget inserts take effect with the call, and remote game ids
are fresh. -/
theorem c7_pinning_invariant (s : SysState) (hreach : Reachable s)
    (row : BoardRow) (hrow : s.db.boards.head? = some row)
    (hopen : truthyOpt row.result = false)
    (m1 m2 : MoveRow) (h1 : m1 ∈ s.db.moves) (h2 : m2 ∈ s.db.moves)
    (hg1 : m1.game_id = row.game_id) (hg2 : m2.game_id = row.game_id)
    (hu : m1.username = m2.username) : m1.team = m2.team :=
  (reachable_sysInv s hreach).1 m1 m2 h1 h2 hu (hg1.trans hg2.symm)

/-- The work item the C7 witness trace enqueues. -/
def c7jb : JobData :=
  { gameId := 1, ongoingGameExists := false, playingAs := Team.carrie,
    user_name := "alice", suggestedMove := "e4" }

/-- The state after alice's intake on the empty system. -/
def c7s1 : SysState := { db := { boards := [], moves := [] }, queue := [c7jb] }

/-- The state after the worker processes alice's item. -/
def c7s2 : SysState :=
  { db := (processMoveFun oracle0 true 10 c7jb c7s1.db).db, queue := [] }

/-- The board row of the witness state. -/
def c7row : BoardRow :=
  { game_id := 1, fen := "fen-after", current_team := Team.larry, move_count := 1,
    result := none, last_updated := 10 }

/-- The accepted move row of the witness state. -/
def c7m : MoveRow :=
  { move_id := 0, username := "alice", move := "e4", team := Team.carrie,
    game_id := 1, created_at := 10 }

/-- Witness for C7: a concrete two-step reachable state with an open game
and an accepted move, on which the invariant theorem applies. -/
theorem c7_witness :
    Reachable c7s2 ∧ c7s2.db.boards.head? = some c7row ∧
    truthyOpt c7row.result = false ∧ c7m ∈ c7s2.db.moves ∧
    c7m.game_id = c7row.game_id ∧ c7m.team = c7m.team := by
  have hfr : freshId initState 1 := by
    refine ⟨?_, ?_, ?_⟩ <;> intro x hx <;> simp [initState] at hx
  have h1 : Step initState c7s1 :=
    Step.intake initState oracle0 env5000 0 "e4" "alice" none Team.carrie 1 hfr
  have h2 : Step c7s1 c7s2 :=
    Step.process c7s1 oracle0 true 10 c7jb [] rfl
  have hreach : Reachable c7s2 :=
    Relation.ReflTransGen.tail (Relation.ReflTransGen.tail Relation.ReflTransGen.refl h1) h2
  have hmem : c7m ∈ c7s2.db.moves := by
    show c7m ∈ (processMoveFun oracle0 true 10 c7jb c7s1.db).db.moves
    decide
  refine ⟨hreach, rfl, rfl, hmem, rfl, ?_⟩
  exact c7_pinning_invariant c7s2 hreach c7row rfl rfl c7m c7m hmem hmem rfl rfl rfl
